import Mathlib

/-!
Verification of the Furnify inventory module (apps/inventory).

The development embeds the slug-assignment logic of `Category.save` and
`Product.save` from `apps/inventory/models.py`, the delete protection of the
two `on_delete=PROTECT` foreign keys, the form validation of
`apps/inventory/forms.py`, and the eagerly-joined product list queryset of
`apps/inventory/views.py`.  Database tables are lists of rows, saves are
explicit state transformers, and the unbounded `while` loop of the slug
probe is run with a fuel argument that is proved sufficient.
-/

namespace Furnify

/-! ### Decimal representation facts

`Category.save` builds candidate slugs with the f-string
`f'{original_slug}-{counter}'`, i.e. with the decimal representation of the
counter.  To reason about the probe loop we need that decimal representation
to be injective, which we obtain from a round-trip evaluator. -/

/-- Numeric value of a decimal digit character. -/
def digitVal (c : Char) : Nat := c.toNat - 48

/-- Value of a big-endian list of decimal digit characters. -/
def digitsVal : List Char → Nat
  | [] => 0
  | c :: cs => digitVal c * 10 ^ cs.length + digitsVal cs

theorem digitVal_digitChar (m : Nat) (h : m < 10) :
    digitVal (Nat.digitChar m) = m := by
  interval_cases m <;> rfl

theorem digitsVal_toDigitsCore :
    ∀ (fuel n : Nat) (ds : List Char), n < 10 ^ fuel →
      digitsVal (Nat.toDigitsCore 10 fuel n ds) =
        n * 10 ^ ds.length + digitsVal ds := by
  intro fuel
  induction fuel with
  | zero =>
    intro n ds hn
    simp only [pow_zero, Nat.lt_one_iff] at hn
    subst hn
    simp [Nat.toDigitsCore]
  | succ fuel ih =>
    intro n ds hn
    by_cases hdiv : n / 10 = 0
    · have hlt : n < 10 := by omega
      have hmod : n % 10 = n := Nat.mod_eq_of_lt hlt
      simp only [Nat.toDigitsCore, hdiv, if_true]
      simp [digitsVal, hmod, digitVal_digitChar n hlt]
    · have hn' : n / 10 < 10 ^ fuel := Nat.nat_repr_len_aux n 10 fuel (by norm_num) hn
      simp only [Nat.toDigitsCore, hdiv, if_false]
      rw [ih (n / 10) (Nat.digitChar (n % 10) :: ds) hn']
      have hmod10 : n % 10 < 10 := Nat.mod_lt n (by norm_num)
      simp only [digitsVal, List.length_cons, digitVal_digitChar (n % 10) hmod10]
      have hdm : n = 10 * (n / 10) + n % 10 := (Nat.div_add_mod n 10).symm
      rw [pow_succ]
      rw [hdm]
      have h10 : (10 * (n / 10) + n % 10) / 10 = n / 10 := by omega
      have h10m : (10 * (n / 10) + n % 10) % 10 = n % 10 := by omega
      rw [h10, h10m]
      ring

theorem digitsVal_repr (n : Nat) : digitsVal (Nat.repr n).data = n := by
  have hlt : n < 10 ^ (n + 1) := by
    calc n < 10 ^ n := Nat.lt_pow_self (by norm_num) n
    _ ≤ 10 ^ (n + 1) := Nat.pow_le_pow_right (by norm_num) (Nat.le_succ n)
  have : (Nat.repr n).data = Nat.toDigitsCore 10 (n + 1) n [] := rfl
  rw [this, digitsVal_toDigitsCore (n + 1) n [] hlt]
  simp [digitsVal]

theorem repr_injective : Function.Injective Nat.repr := by
  intro m n h
  have := congrArg (fun s => digitsVal (String.data s)) h
  simpa [digitsVal_repr] using this

/-! ### Slugification

Modelled from the spec: `django.utils.text.slugify` is framework code, not
part of the repository; §4.1 of the spec describes it as "lowercase,
non-alphanumeric runs collapsed to single hyphens, leading/trailing hyphens
trimmed", which is what the function below implements. -/

/-- Collapse runs of hyphens to a single hyphen.  The flag records whether
the previously emitted character was a hyphen. -/
def collapseHyphens : Bool → List Char → List Char
  | _, [] => []
  | prevHyphen, c :: rest =>
    if c = '-' then
      if prevHyphen then collapseHyphens true rest
      else '-' :: collapseHyphens true rest
    else c :: collapseHyphens false rest

/-- Modelled from the spec: standard slugification — lowercase the name,
collapse every run of non-alphanumeric characters to a single hyphen, and
trim leading and trailing hyphens. -/
def slugify (s : String) : String :=
  let mapped := s.data.map fun c =>
    let c := c.toLower
    if c.isAlphanum then c else '-'
  let collapsed := collapseHyphens false mapped
  let trimmed :=
    ((collapsed.dropWhile (fun c => c = '-')).reverse.dropWhile
      (fun c => c = '-')).reverse
  String.mk trimmed

/-! ### The slug-assignment algorithm of `Category.save` / `Product.save`

The two `save` methods in `apps/inventory/models.py` contain the identical
slug logic, duplicated per model; `saveSlug` embeds it once, over the
`(pk, slug)` projection of the relevant table.  `probeLoop` is the `while`
loop of step 4; the source loop is unbounded, so the embedding passes a fuel
of `rows.length + 2`, which `probeLoop_run` below proves is never exhausted. -/

/-- The candidate slug `f'{original_slug}-{counter}'` built by the loop body. -/
def slugCandidate (orig : String) (counter : Nat) : String :=
  orig ++ "-" ++ Nat.repr counter

/-- The `while Model.objects.filter(slug=self.slug).exists():` loop of
`Category.save` / `Product.save`.  `cur` is `self.slug`, `orig` is
`original_slug`, `counter` is `counter`; the membership test ranges over the
slugs of the whole table (the loop does not exclude the row being saved). -/
def probeLoop (slugs : List String) (orig : String) :
    Nat → String → Nat → String
  | _, cur, 0 => cur
  | counter, cur, fuel + 1 =>
    if cur ∈ slugs then
      probeLoop slugs orig (counter + 1) (slugCandidate orig counter) fuel
    else cur

/-- Step 1 of `save`: `if not self.slug: self.slug = slugify(self.name)`. -/
def slugBase (name slug : String) : String :=
  if slug = "" then slugify name else slug

/-- The slug finally assigned by `Category.save` / `Product.save`, as a
function of the `(pk, slug)` rows of the table, the primary key of the
entity being saved (`none` on creation), and the entity's name and current
slug.  Mirrors steps 1–4 of the source: generate from the name if absent,
filter the table on the slug, exclude the row's own pk when updating, and
if the queryset is non-empty run the counter loop over the whole table. -/
def saveSlug (rows : List (Nat × String)) (pk? : Option Nat)
    (name slug : String) : String :=
  let slug := slugBase name slug
  let queryset := rows.filter fun (r : Nat × String) => r.2 == slug
  let queryset :=
    match pk? with
    | some pk => queryset.filter fun (r : Nat × String) => r.1 != pk
    | none => queryset
  if queryset.isEmpty then slug
  else probeLoop (rows.map Prod.snd) slug 1 slug (rows.length + 2)

/-! ### Correctness of the probe loop -/

theorem slugCandidate_injective (orig : String) :
    Function.Injective (slugCandidate orig) := by
  intro j k h
  have hdata := congrArg String.data h
  simp only [slugCandidate, String.data_append, List.append_assoc] at hdata
  have h1 := List.append_cancel_left hdata
  have h2 := List.append_cancel_left h1
  exact repr_injective (String.ext h2)

/-- Pigeonhole: among the first `slugs.length + 1` candidate slugs at least
one is not taken, so the unbounded source loop always terminates within the
fuel `saveSlug` provides. -/
theorem exists_free_candidate (slugs : List String) (orig : String) :
    ∃ k, 1 ≤ k ∧ k ≤ slugs.length + 1 ∧ slugCandidate orig k ∉ slugs := by
  by_contra hcon
  push_neg at hcon
  have hmaps : ∀ i ∈ Finset.range (slugs.length + 1),
      slugCandidate orig (i + 1) ∈ slugs.toFinset := by
    intro i hi
    rw [List.mem_toFinset]
    rw [Finset.mem_range] at hi
    exact hcon (i + 1) (by omega) (by omega)
  have hinj : Set.InjOn (fun i => slugCandidate orig (i + 1))
      (Finset.range (slugs.length + 1)) := by
    intro a _ b _ hab
    have := slugCandidate_injective orig hab
    omega
  have hle := Finset.card_le_card_of_injOn _ hmaps hinj
  rw [Finset.card_range] at hle
  have hfin : slugs.toFinset.card ≤ slugs.length := List.toFinset_card_le slugs
  omega

theorem probeLoop_exact (slugs : List String) (orig : String) :
    ∀ (fuel c k : Nat), c ≤ k → k + 1 ≤ c + fuel →
      (∀ j, c ≤ j → j < k → slugCandidate orig j ∈ slugs) →
      slugCandidate orig k ∉ slugs →
      probeLoop slugs orig (c + 1) (slugCandidate orig c) fuel =
        slugCandidate orig k := by
  intro fuel
  induction fuel with
  | zero => intro c k hck hfuel _ _; omega
  | succ fuel ih =>
    intro c k hck hfuel hbusy hfree
    by_cases hc : c = k
    · subst hc
      simp only [probeLoop, if_neg hfree]
    · have hclt : c < k := by omega
      have hmem : slugCandidate orig c ∈ slugs := hbusy c le_rfl hclt
      simp only [probeLoop, if_pos hmem]
      exact ih (c + 1) k (by omega) (by omega)
        (fun j hj1 hj2 => hbusy j (by omega) hj2) hfree

theorem probeLoop_run (slugs : List String) (orig : String) (k fuel : Nat)
    (horig : orig ∈ slugs) (hk : 1 ≤ k)
    (hbusy : ∀ j, 1 ≤ j → j < k → slugCandidate orig j ∈ slugs)
    (hfree : slugCandidate orig k ∉ slugs)
    (hfuel : k + 1 ≤ fuel) :
    probeLoop slugs orig 1 orig fuel = slugCandidate orig k := by
  obtain ⟨f, rfl⟩ : ∃ f, fuel = f + 1 := ⟨fuel - 1, by omega⟩
  simp only [probeLoop, if_pos horig]
  exact probeLoop_exact slugs orig f 1 k hk (by omega) hbusy hfree

/-- There is a least free counter value, and it is within the fuel bound. -/
theorem exists_minimal_free (slugs : List String) (orig : String) :
    ∃ k, 1 ≤ k ∧ k ≤ slugs.length + 1 ∧ slugCandidate orig k ∉ slugs ∧
      ∀ j, 1 ≤ j → j < k → slugCandidate orig j ∈ slugs := by
  obtain ⟨k₀, hk1, hk2, hk3⟩ := exists_free_candidate slugs orig
  have hex : ∃ k, 1 ≤ k ∧ slugCandidate orig k ∉ slugs := ⟨k₀, hk1, hk3⟩
  refine ⟨Nat.find hex, (Nat.find_spec hex).1, ?_, (Nat.find_spec hex).2, ?_⟩
  · exact le_trans (Nat.find_min' hex ⟨hk1, hk3⟩) hk2
  · intro j h1 h2
    by_contra hnot
    exact Nat.find_min hex h2 ⟨h1, hnot⟩

/-! ### Characterisation of `saveSlug` -/

/-- If every row carrying the (possibly regenerated) slug is the saved
entity's own row, the queryset of step 2–3 is empty and the slug is kept. -/
theorem saveSlug_eq_base (rows : List (Nat × String)) (pk? : Option Nat)
    (name slug : String)
    (h : ∀ r ∈ rows, r.2 = slugBase name slug → pk? = some r.1) :
    saveSlug rows pk? name slug = slugBase name slug := by
  unfold saveSlug
  cases pk? with
  | none =>
    have hnil : rows.filter (fun (r : Nat × String) =>
        r.2 == slugBase name slug) = [] := by
      rw [List.filter_eq_nil_iff]
      intro r hr hbeq
      rw [beq_iff_eq] at hbeq
      exact Option.noConfusion (h r hr hbeq)
    simp [hnil]
  | some pk =>
    have hnil : (rows.filter (fun (r : Nat × String) =>
        r.2 == slugBase name slug)).filter
          (fun (r : Nat × String) => r.1 != pk) = [] := by
      rw [List.filter_eq_nil_iff]
      intro r hr hbne
      rw [List.mem_filter, beq_iff_eq] at hr
      rw [bne_iff_ne] at hbne
      have := h r hr.1 hr.2
      exact hbne (Option.some.inj this).symm
    simp [hnil]

/-- If some other row carries the (possibly regenerated) slug, the result is
the candidate slug with the least free counter value, and that candidate is
taken by no row of the table at all. -/
theorem saveSlug_eq_candidate (rows : List (Nat × String)) (pk? : Option Nat)
    (name slug : String) (r₀ : Nat × String)
    (hr₀ : r₀ ∈ rows) (hs : r₀.2 = slugBase name slug)
    (hex : ∀ p, pk? = some p → r₀.1 ≠ p) :
    ∃ k, 1 ≤ k ∧ k ≤ rows.length + 1 ∧
      saveSlug rows pk? name slug = slugCandidate (slugBase name slug) k ∧
      slugCandidate (slugBase name slug) k ∉ rows.map Prod.snd ∧
      ∀ j, 1 ≤ j → j < k →
        slugCandidate (slugBase name slug) j ∈ rows.map Prod.snd := by
  obtain ⟨k, h1, h2, h3, h4⟩ :=
    exists_minimal_free (rows.map Prod.snd) (slugBase name slug)
  rw [List.length_map] at h2
  have hbase : slugBase name slug ∈ rows.map Prod.snd := by
    rw [← hs]
    exact List.mem_map_of_mem Prod.snd hr₀
  have hrun : probeLoop (rows.map Prod.snd) (slugBase name slug) 1
      (slugBase name slug) (rows.length + 2) =
      slugCandidate (slugBase name slug) k :=
    probeLoop_run (rows.map Prod.snd) (slugBase name slug) k
      (rows.length + 2) hbase h1 h4 h3 (by omega)
  refine ⟨k, h1, h2, ?_, h3, h4⟩
  unfold saveSlug
  cases pk? with
  | none =>
    have hmem : r₀ ∈ rows.filter (fun (r : Nat × String) =>
        r.2 == slugBase name slug) := by
      rw [List.mem_filter, beq_iff_eq]
      exact ⟨hr₀, hs⟩
    have hne : (rows.filter (fun (r : Nat × String) =>
        r.2 == slugBase name slug)).isEmpty = false := by
      rw [List.isEmpty_eq_false]
      exact List.ne_nil_of_mem hmem
    simp only [hne, Bool.false_eq_true, if_false]
    exact hrun
  | some pk =>
    have hmem : r₀ ∈ (rows.filter (fun (r : Nat × String) =>
        r.2 == slugBase name slug)).filter
          (fun (r : Nat × String) => r.1 != pk) := by
      rw [List.mem_filter, List.mem_filter, beq_iff_eq, bne_iff_ne]
      exact ⟨⟨hr₀, hs⟩, hex pk rfl⟩
    have hne : ((rows.filter (fun (r : Nat × String) =>
        r.2 == slugBase name slug)).filter
          (fun (r : Nat × String) => r.1 != pk)).isEmpty = false := by
      rw [List.isEmpty_eq_false]
      exact List.ne_nil_of_mem hmem
    simp only [hne, Bool.false_eq_true, if_false]
    exact hrun

/-- The slug assigned by `save` never equals the slug of another row of the
table: slug uniqueness is preserved by every save. -/
theorem saveSlug_avoids (rows : List (Nat × String)) (pk? : Option Nat)
    (name slug : String) :
    ∀ r ∈ rows, (∀ p, pk? = some p → r.1 ≠ p) →
      r.2 ≠ saveSlug rows pk? name slug := by
  intro r hr hp
  by_cases hcol : ∃ r₀ ∈ rows, r₀.2 = slugBase name slug ∧
      ∀ p, pk? = some p → r₀.1 ≠ p
  · obtain ⟨r₀, h₀, hs, hex⟩ := hcol
    obtain ⟨k, _, _, heq, hnot, _⟩ :=
      saveSlug_eq_candidate rows pk? name slug r₀ h₀ hs hex
    rw [heq]
    intro hcontra
    exact hnot (hcontra ▸ List.mem_map_of_mem Prod.snd hr)
  · push_neg at hcol
    have hbase : ∀ r' ∈ rows, r'.2 = slugBase name slug → pk? = some r'.1 := by
      intro r' hr' hs'
      obtain ⟨p, hpk, hpeq⟩ := hcol r' hr' hs'
      rw [hpk, hpeq]
    rw [saveSlug_eq_base rows pk? name slug hbase]
    intro hcontra
    exact hp r.1 (hbase r hr hcontra) rfl

/-! ### The data model

A `Category` row as stored: primary key, `name`, `slug`, and the optional
self-referential `parent` foreign key.  A `Product` row: primary key,
`name`, `slug`, the required `category` foreign key, `price` and `stock`.
The fields irrelevant to every claim (descriptions, photos, timestamps) are
omitted.  A database state is one list of rows per table. -/

structure CategoryRow where
  pk : Nat
  name : String
  slug : String
  parent : Option Nat
deriving DecidableEq

structure ProductRow where
  pk : Nat
  name : String
  slug : String
  category : Nat
  price : Int
  stock : Nat
deriving DecidableEq

structure DB where
  cats : List CategoryRow
  prods : List ProductRow
deriving DecidableEq

def emptyDB : DB := ⟨[], []⟩

/-- A fresh autoincrement primary key: larger than every key in use. -/
def freshPk (pks : List Nat) : Nat := pks.foldr max 0 + 1

/-- The `(pk, slug)` projection of the Category table, the part of the
state `Category.save` queries. -/
def catRows (db : DB) : List (Nat × String) :=
  db.cats.map fun c => (c.pk, c.slug)

/-- The `(pk, slug)` projection of the Product table. -/
def prodRows (db : DB) : List (Nat × String) :=
  db.prods.map fun p => (p.pk, p.slug)

/-- Creating a Category: `Category.save` on an instance without a primary
key.  The slug is assigned by the logic of `saveSlug`; the row is then
inserted with a fresh primary key. -/
def createCategory (db : DB) (name slug : String) (parent : Option Nat) : DB :=
  let s := saveSlug (catRows db) none name slug
  { db with
    cats := ⟨freshPk (db.cats.map CategoryRow.pk), name, s, parent⟩ :: db.cats }

/-- Updating a Category: `Category.save` on an instance whose primary key
is `pk`; the row with that key is overwritten with the submitted fields and
the slug assigned by `saveSlug` (which excludes `pk` in its initial check). -/
def updateCategory (db : DB) (pk : Nat) (name slug : String)
    (parent : Option Nat) : DB :=
  let s := saveSlug (catRows db) (some pk) name slug
  { db with
    cats := db.cats.map fun c => if c.pk = pk then ⟨pk, name, s, parent⟩ else c }

/-- Creating a Product: `Product.save` on an instance without a primary key. -/
def createProduct (db : DB) (name slug : String) (category : Nat)
    (price : Int) (stock : Nat) : DB :=
  let s := saveSlug (prodRows db) none name slug
  { db with
    prods := ⟨freshPk (db.prods.map ProductRow.pk), name, s, category,
      price, stock⟩ :: db.prods }

/-- Updating a Product: `Product.save` on an instance whose primary key is
`pk`. -/
def updateProduct (db : DB) (pk : Nat) (name slug : String) (category : Nat)
    (price : Int) (stock : Nat) : DB :=
  let s := saveSlug (prodRows db) (some pk) name slug
  { db with
    prods := db.prods.map fun p =>
      if p.pk = pk then ⟨pk, name, s, category, price, stock⟩ else p }

inductive DeleteResult where
  | protectedError : DeleteResult
  | deleted : DB → DeleteResult
deriving DecidableEq

/-- Modelled from the spec: the delete machinery is framework code — the
repository only declares `on_delete=models.PROTECT` on `Category.parent`
and `Product.category`.  Per the spec, deleting a Category that has at
least one child Category or one referencing Product fails with a
data-integrity (`ProtectedError`) error and leaves every row of both
tables unchanged; otherwise the delete removes the row. -/
def deleteCategory (db : DB) (pk : Nat) : DeleteResult :=
  if db.cats.any (fun c => c.parent == some pk) ||
      db.prods.any (fun p => p.category == pk) then
    DeleteResult.protectedError
  else
    DeleteResult.deleted { db with cats := db.cats.filter fun c => c.pk != pk }

/-- The database invariant: primary keys are pairwise distinct and slugs
are pairwise distinct, within each of the two tables separately. -/
def Inv (db : DB) : Prop :=
  (db.cats.map CategoryRow.pk).Nodup ∧ (db.cats.map CategoryRow.slug).Nodup ∧
  (db.prods.map ProductRow.pk).Nodup ∧ (db.prods.map ProductRow.slug).Nodup

/-! ### Preservation of the invariant -/

theorem le_foldr_max (pks : List Nat) : ∀ x ∈ pks, x ≤ pks.foldr max 0 := by
  induction pks with
  | nil => intro x hx; cases hx
  | cons a t ih =>
    intro x hx
    rcases List.mem_cons.mp hx with h | h
    · subst h
      exact le_max_left _ _
    · exact le_trans (ih x h) (le_max_right _ _)

theorem lt_freshPk (pks : List Nat) : ∀ x ∈ pks, x < freshPk pks := by
  intro x hx
  have := le_foldr_max pks x hx
  unfold freshPk
  omega

theorem not_mem_freshPk (pks : List Nat) : freshPk pks ∉ pks := by
  intro hmem
  exact absurd rfl (Nat.ne_of_lt (lt_freshPk pks _ hmem)).symm

/-- Rewriting the slug of the row with key `pk` to a value `s` that no
other row carries keeps the slug column duplicate-free. -/
theorem nodup_update_pairs (l : List (Nat × String)) (pk : Nat) (s : String)
    (hpk : (l.map Prod.fst).Nodup) (hslug : (l.map Prod.snd).Nodup)
    (hs : ∀ r ∈ l, r.1 ≠ pk → r.2 ≠ s) :
    (l.map fun r => if r.1 = pk then s else r.2).Nodup := by
  induction l with
  | nil => simp
  | cons r t ih =>
    simp only [List.map_cons, List.nodup_cons] at hpk hslug ⊢
    by_cases hr : r.1 = pk
    · rw [if_pos hr]
      have htpk : ∀ q ∈ t, q.1 ≠ pk := by
        intro q hq hqpk
        exact hpk.1 (hr ▸ hqpk ▸ List.mem_map_of_mem Prod.fst hq)
      have hmapeq : (t.map fun q => if q.1 = pk then s else q.2) =
          t.map Prod.snd :=
        List.map_congr_left fun q hq => if_neg (htpk q hq)
      rw [hmapeq]
      refine ⟨?_, hslug.2⟩
      intro hmem
      obtain ⟨q, hq, hq2⟩ := List.mem_map.mp hmem
      exact hs q (List.mem_cons_of_mem r hq) (htpk q hq) hq2
    · rw [if_neg hr]
      refine ⟨?_, ih hpk.2 hslug.2 fun q hq => hs q (List.mem_cons_of_mem r hq)⟩
      intro hmem
      obtain ⟨q, hq, hq2⟩ := List.mem_map.mp hmem
      by_cases hq1 : q.1 = pk
      · rw [if_pos hq1] at hq2
        exact hs r (List.mem_cons_self r t) hr hq2.symm
      · rw [if_neg hq1] at hq2
        exact hslug.1 (hq2 ▸ List.mem_map_of_mem Prod.snd hq)

theorem catRows_fst (db : DB) :
    (catRows db).map Prod.fst = db.cats.map CategoryRow.pk := by
  rw [catRows, List.map_map]
  rfl

theorem catRows_snd (db : DB) :
    (catRows db).map Prod.snd = db.cats.map CategoryRow.slug := by
  rw [catRows, List.map_map]
  rfl

theorem prodRows_fst (db : DB) :
    (prodRows db).map Prod.fst = db.prods.map ProductRow.pk := by
  rw [prodRows, List.map_map]
  rfl

theorem prodRows_snd (db : DB) :
    (prodRows db).map Prod.snd = db.prods.map ProductRow.slug := by
  rw [prodRows, List.map_map]
  rfl

theorem updateCategory_pks (db : DB) (pk : Nat) (name slug : String)
    (parent : Option Nat) :
    (updateCategory db pk name slug parent).cats.map CategoryRow.pk =
      db.cats.map CategoryRow.pk := by
  unfold updateCategory
  rw [List.map_map]
  refine List.map_congr_left fun c _ => ?_
  by_cases hc : c.pk = pk
  · simp [Function.comp, hc]
  · simp [Function.comp, hc]

theorem updateCategory_slugs (db : DB) (pk : Nat) (name slug : String)
    (parent : Option Nat) :
    (updateCategory db pk name slug parent).cats.map CategoryRow.slug =
      (catRows db).map fun r =>
        if r.1 = pk then saveSlug (catRows db) (some pk) name slug else r.2 := by
  unfold updateCategory
  rw [List.map_map, catRows, List.map_map]
  refine List.map_congr_left fun c _ => ?_
  by_cases hc : c.pk = pk
  · simp [Function.comp, hc]
  · simp [Function.comp, hc]

theorem updateProduct_pks (db : DB) (pk : Nat) (name slug : String)
    (category : Nat) (price : Int) (stock : Nat) :
    (updateProduct db pk name slug category price stock).prods.map
        ProductRow.pk = db.prods.map ProductRow.pk := by
  unfold updateProduct
  rw [List.map_map]
  refine List.map_congr_left fun p _ => ?_
  by_cases hp : p.pk = pk
  · simp [Function.comp, hp]
  · simp [Function.comp, hp]

theorem updateProduct_slugs (db : DB) (pk : Nat) (name slug : String)
    (category : Nat) (price : Int) (stock : Nat) :
    (updateProduct db pk name slug category price stock).prods.map
        ProductRow.slug =
      (prodRows db).map fun r =>
        if r.1 = pk then saveSlug (prodRows db) (some pk) name slug else r.2 := by
  unfold updateProduct
  rw [List.map_map, prodRows, List.map_map]
  refine List.map_congr_left fun p _ => ?_
  by_cases hp : p.pk = pk
  · simp [Function.comp, hp]
  · simp [Function.comp, hp]

theorem inv_createCategory (db : DB) (name slug : String)
    (parent : Option Nat) (h : Inv db) :
    Inv (createCategory db name slug parent) := by
  obtain ⟨h1, h2, h3, h4⟩ := h
  refine ⟨?_, ?_, h3, h4⟩
  · simp only [createCategory, List.map_cons, List.nodup_cons]
    exact ⟨not_mem_freshPk _, h1⟩
  · simp only [createCategory, List.map_cons, List.nodup_cons]
    refine ⟨?_, h2⟩
    intro hmem
    obtain ⟨c, hc, hceq⟩ := List.mem_map.mp hmem
    have := saveSlug_avoids (catRows db) none name slug (c.pk, c.slug)
      (List.mem_map_of_mem _ hc) (fun p hp => Option.noConfusion hp)
    exact this hceq

theorem inv_createProduct (db : DB) (name slug : String) (category : Nat)
    (price : Int) (stock : Nat) (h : Inv db) :
    Inv (createProduct db name slug category price stock) := by
  obtain ⟨h1, h2, h3, h4⟩ := h
  refine ⟨h1, h2, ?_, ?_⟩
  · simp only [createProduct, List.map_cons, List.nodup_cons]
    exact ⟨not_mem_freshPk _, h3⟩
  · simp only [createProduct, List.map_cons, List.nodup_cons]
    refine ⟨?_, h4⟩
    intro hmem
    obtain ⟨p, hp, hpeq⟩ := List.mem_map.mp hmem
    have := saveSlug_avoids (prodRows db) none name slug (p.pk, p.slug)
      (List.mem_map_of_mem _ hp) (fun q hq => Option.noConfusion hq)
    exact this hpeq

theorem inv_updateCategory (db : DB) (pk : Nat) (name slug : String)
    (parent : Option Nat) (h : Inv db) :
    Inv (updateCategory db pk name slug parent) := by
  obtain ⟨h1, h2, h3, h4⟩ := h
  refine ⟨?_, ?_, h3, h4⟩
  · rw [updateCategory_pks]
    exact h1
  · rw [updateCategory_slugs]
    refine nodup_update_pairs (catRows db) pk _ ?_ ?_ ?_
    · rw [catRows_fst]
      exact h1
    · rw [catRows_snd]
      exact h2
    · intro r hr hrpk
      exact saveSlug_avoids (catRows db) (some pk) name slug r hr
        fun p hp => (Option.some.inj hp) ▸ hrpk

theorem inv_updateProduct (db : DB) (pk : Nat) (name slug : String)
    (category : Nat) (price : Int) (stock : Nat) (h : Inv db) :
    Inv (updateProduct db pk name slug category price stock) := by
  obtain ⟨h1, h2, h3, h4⟩ := h
  refine ⟨h1, h2, ?_, ?_⟩
  · rw [updateProduct_pks]
    exact h3
  · rw [updateProduct_slugs]
    refine nodup_update_pairs (prodRows db) pk _ ?_ ?_ ?_
    · rw [prodRows_fst]
      exact h3
    · rw [prodRows_snd]
      exact h4
    · intro r hr hrpk
      exact saveSlug_avoids (prodRows db) (some pk) name slug r hr
        fun p hp => (Option.some.inj hp) ▸ hrpk

/-! ### Sequences of operations -/

/-- The create and update operations of the two entity kinds, as reachable
through the forms or the administrative panel. -/
inductive Op where
  | createCat : String → String → Option Nat → Op
  | updateCat : Nat → String → String → Option Nat → Op
  | createProd : String → String → Nat → Int → Nat → Op
  | updateProd : Nat → String → String → Nat → Int → Nat → Op
deriving DecidableEq

def applyOp (db : DB) : Op → DB
  | Op.createCat n s par => createCategory db n s par
  | Op.updateCat pk n s par => updateCategory db pk n s par
  | Op.createProd n s c pr st => createProduct db n s c pr st
  | Op.updateProd pk n s c pr st => updateProduct db pk n s c pr st

/-- The database after running a sequence of saves from the empty state. -/
def runOps (ops : List Op) : DB := ops.foldl applyOp emptyDB

theorem inv_applyOp (db : DB) (op : Op) (h : Inv db) : Inv (applyOp db op) := by
  cases op with
  | createCat n s par => exact inv_createCategory db n s par h
  | updateCat pk n s par => exact inv_updateCategory db pk n s par h
  | createProd n s c pr st => exact inv_createProduct db n s c pr st h
  | updateProd pk n s c pr st => exact inv_updateProduct db pk n s c pr st h

theorem inv_foldl (ops : List Op) :
    ∀ db : DB, Inv db → Inv (ops.foldl applyOp db) := by
  induction ops with
  | nil => intro db h; exact h
  | cons op rest ih =>
    intro db h
    exact ih (applyOp db op) (inv_applyOp db op h)

theorem inv_runOps (ops : List Op) : Inv (runOps ops) :=
  inv_foldl ops emptyDB ⟨List.nodup_nil, List.nodup_nil, List.nodup_nil,
    List.nodup_nil⟩

/-! ### Forms (`apps/inventory/forms.py`) and views (`apps/inventory/views.py`) -/

/-- A `ProductForm` submission.  The form's fields are `name`,
`description`, `category`, `price`, `stock`, `photo`; the ones that matter
to validation are kept (`price` and `stock` as submitted integers, possibly
negative; `category` possibly missing). -/
structure ProductInput where
  name : String
  category : Option Nat
  price : Int
  stock : Int
deriving DecidableEq

/-- `ProductForm.clean_price`: a negative price raises a validation error. -/
def clean_price (price : Int) : Except String Int :=
  if price < 0 then Except.error "Price cannot be negative."
  else Except.ok price

/-- `ProductForm.clean_stock`: a negative stock raises a validation error. -/
def clean_stock (stock : Int) : Except String Int :=
  if stock < 0 then Except.error "Stock cannot be negative."
  else Except.ok stock

/-- `ProductForm.is_valid()`: the required fields are present and both
clean methods pass. -/
def productFormValid (inp : ProductInput) : Bool :=
  inp.name != "" && inp.category.isSome &&
    (clean_price inp.price).isOk && (clean_stock inp.stock).isOk

/-- Modelled from the spec: `ProductCreateView` POST semantics are framework
code (`CreateView`) — a valid form saves the product and redirects with
HTTP 302; an invalid form re-renders the same form with field errors,
HTTP 200, and no state mutation. -/
def productCreatePost (db : DB) (inp : ProductInput) : Nat × DB :=
  if productFormValid inp then
    match inp.category with
    | some c => (302, createProduct db inp.name "" c inp.price inp.stock.toNat)
    | none => (302, db)
  else (200, db)

/-- A queryset as configured by a list view: the relations passed to
`select_related`. -/
structure ProductQuerySet where
  eager : List String
deriving DecidableEq

/-- `ProductListView.get_queryset`:
`Product.objects.select_related('category')`. -/
def productListQueryset : ProductQuerySet := ⟨["category"]⟩

/-- Modelled from the spec: ORM read-cost semantics — evaluating a queryset
is one database query, and reading a row's related category afterwards
costs one additional query per row unless the relation was eagerly joined
by `select_related`. -/
def listQueries (qs : ProductQuerySet) (db : DB) : Nat :=
  1 + db.prods.length * (if "category" ∈ qs.eager then 0 else 1)

/-- The rendered product list: every product's name paired with the name of
its category. -/
def listProductsWithCategory (db : DB) : List (String × Option String) :=
  db.prods.map fun p =>
    (p.name, (db.cats.find? fun c => c.pk == p.category).map CategoryRow.name)

/-- Follows the spec's words for the claim that the saved row is excluded
by primary key from the collision check "throughout slug assignment": in
this variant the probe loop, too, ranges over the slugs of the other rows
only.  It is compared with `saveSlug`, which embeds the source and runs the
loop over the whole table. -/
def saveSlugExcludingSelf (rows : List (Nat × String)) (pk : Nat)
    (name slug : String) : String :=
  let slug := slugBase name slug
  let others := rows.filter fun (r : Nat × String) => r.1 != pk
  let queryset := others.filter fun (r : Nat × String) => r.2 == slug
  if queryset.isEmpty then slug
  else probeLoop (others.map Prod.snd) slug 1 slug (others.length + 2)

/-- Removing the row with key `pk` from a duplicate-free table shortens it
by exactly one row. -/
theorem length_filter_ne_pk (l : List CategoryRow) (pk : Nat)
    (hnd : (l.map CategoryRow.pk).Nodup) (hmem : pk ∈ l.map CategoryRow.pk) :
    (l.filter fun c => c.pk != pk).length + 1 = l.length := by
  induction l with
  | nil => simp at hmem
  | cons c t ih =>
    simp only [List.map_cons, List.nodup_cons, List.mem_cons] at hnd hmem
    by_cases hc : c.pk = pk
    · have htf : t.filter (fun c' => c'.pk != pk) = t := by
        rw [List.filter_eq_self]
        intro c' hc'
        rw [bne_iff_ne]
        intro hceq
        have hcc : c'.pk = c.pk := by rw [hceq, hc]
        exact hnd.1 (List.mem_map.mpr ⟨c', hc', hcc⟩)
      have hhead : (c.pk != pk) = false := by
        rw [bne_eq_false_iff_eq]
        exact hc
      simp [List.filter_cons, hhead, htf]
    · have hmem' : pk ∈ t.map CategoryRow.pk := by
        rcases hmem with h | h
        · exact absurd h.symm hc
        · exact h
      have hhead : (c.pk != pk) = true := by
        rw [bne_iff_ne]
        exact hc
      simp only [List.filter_cons, hhead, if_true, List.length_cons]
      have := ih hnd.2 hmem'
      omega

/-! ### The claims -/

/-- C1: for every name whose slug base `S = slugify(N)` collides with the
slug of an existing row of the same table, creating an entity with that
name and no explicit slug assigns the slug `S-k` for the smallest positive
integer `k` such that `S-k` is not already a slug of that table.  Both
`Category.save` and `Product.save` reach this path through `saveSlug` with
no primary key. -/
theorem collision_assigns_least_free_suffix (rows : List (Nat × String))
    (name : String) (h : slugify name ∈ rows.map Prod.snd) :
    ∃ k, 1 ≤ k ∧
      saveSlug rows none name "" = slugCandidate (slugify name) k ∧
      slugCandidate (slugify name) k ∉ rows.map Prod.snd ∧
      ∀ j, 1 ≤ j → j < k →
        slugCandidate (slugify name) j ∈ rows.map Prod.snd := by
  obtain ⟨r₀, hr₀, hr₀s⟩ := List.mem_map.mp h
  have hbase : slugBase name "" = slugify name := rfl
  obtain ⟨k, h1, _, h3, h4, h5⟩ :=
    saveSlug_eq_candidate rows none name "" r₀ hr₀ (by rw [hbase]; exact hr₀s)
      fun p hp => Option.noConfusion hp
  rw [hbase] at h3 h4 h5
  exact ⟨k, h1, h3, h4, h5⟩

theorem collision_assigns_least_free_suffix_witness :
    slugify "Home" ∈ ([(1, "home")] : List (Nat × String)).map Prod.snd ∧
    ∃ k, 1 ≤ k ∧
      saveSlug [(1, "home")] none "Home" "" =
        slugCandidate (slugify "Home") k ∧
      slugCandidate (slugify "Home") k ∉
        ([(1, "home")] : List (Nat × String)).map Prod.snd ∧
      ∀ j, 1 ≤ j → j < k → slugCandidate (slugify "Home") j ∈
        ([(1, "home")] : List (Nat × String)).map Prod.snd :=
  ⟨by decide, collision_assigns_least_free_suffix [(1, "home")] "Home" (by decide)⟩

/-- C2: for every name whose slug base collides with no slug stored in the
table, creation with no explicit slug assigns exactly `slugify(name)`,
with no suffix. -/
theorem no_collision_assigns_base (rows : List (Nat × String))
    (name : String) (h : slugify name ∉ rows.map Prod.snd) :
    saveSlug rows none name "" = slugify name := by
  have hbase : slugBase name "" = slugify name := rfl
  have := saveSlug_eq_base rows none name "" ?_
  · rw [this, hbase]
  · intro r hr hrs
    rw [hbase] at hrs
    exact absurd (List.mem_map.mpr ⟨r, hr, hrs⟩) h

theorem no_collision_assigns_base_witness :
    slugify "Chairs" ∉ ([(1, "home")] : List (Nat × String)).map Prod.snd ∧
    saveSlug [(1, "home")] none "Chairs" "" = slugify "Chairs" :=
  ⟨by decide, no_collision_assigns_base [(1, "home")] "Chairs" (by decide)⟩

/-- C3 counterexample: an entity saved with the non-empty slug `"home"`
into a table where a different row already has slug `"home"` does not keep
its slug — `save` rewrites it to `"home-1"`, refuting the claim that the
slug field is never modified whenever it is non-empty. -/
theorem nonempty_slug_modified_counterexample :
    ("home" : String) ≠ "" ∧
    saveSlug [(1, "home")] none "B" "home" ≠ "home" ∧
    saveSlug [(1, "home")] none "B" "home" = "home-1" := by
  refine ⟨by decide, by decide, by decide⟩

/-- C3 amended: for an entity with a non-empty slug, generation from the
name is skipped — the assigned slug does not depend on the name at all —
and the slug is left unchanged whenever no *other* row of the table
carries the same slug (in particular on every update where the in-memory
slug equals the entity's stored slug and slugs are unique); a non-empty
slug that collides with a different row is still rewritten by the
uniqueness loop. -/
theorem nonempty_slug_skips_generation (rows : List (Nat × String))
    (pk? : Option Nat) (name name' slug : String) (hs : slug ≠ "") :
    saveSlug rows pk? name slug = saveSlug rows pk? name' slug ∧
    ((∀ r ∈ rows, r.2 = slug → pk? = some r.1) →
      saveSlug rows pk? name slug = slug) := by
  have hbase : slugBase name slug = slug := if_neg hs
  have hbase' : slugBase name' slug = slug := if_neg hs
  constructor
  · unfold saveSlug
    rw [hbase, hbase']
  · intro h
    have := saveSlug_eq_base rows pk? name slug (by rw [hbase]; exact h)
    rw [hbase] at this
    exact this

theorem nonempty_slug_skips_generation_witness :
    ("sofa" : String) ≠ "" ∧
    (saveSlug [(1, "home")] (some 1) "A" "sofa" =
        saveSlug [(1, "home")] (some 1) "B" "sofa" ∧
      ((∀ r ∈ ([(1, "home")] : List (Nat × String)), r.2 = "sofa" →
          (some 1 : Option Nat) = some r.1) →
        saveSlug [(1, "home")] (some 1) "A" "sofa" = "sofa")) :=
  ⟨by decide, nonempty_slug_skips_generation [(1, "home")] (some 1) "A" "B"
    "sofa" (by decide)⟩

/-- C4 counterexample: the claim that the entity's own stored row is
excluded from the collision check *throughout* slug assignment fails — the
probe loop of the source filters the whole table without excluding the
row's primary key.  Updating row 1 (stored slug `"home-1"`) to the slug
`"home"` while row 2 holds `"home"`: exclusion throughout would assign
`"home-1"` (the row's own slug, free among the others), but the code skips
over it and assigns `"home-2"`. -/
theorem update_probe_excludes_self_counterexample :
    saveSlug [(1, "home-1"), (2, "home")] (some 1) "X" "home" ≠
      saveSlugExcludingSelf [(1, "home-1"), (2, "home")] 1 "X" "home" ∧
    saveSlug [(1, "home-1"), (2, "home")] (some 1) "X" "home" = "home-2" ∧
    saveSlugExcludingSelf [(1, "home-1"), (2, "home")] 1 "X" "home" =
      "home-1" := by
  refine ⟨by decide, by decide, by decide⟩

/-- C4 amended: the entity's own row is excluded by primary key from the
initial collision check (not from the probe loop), so an updated entity
whose only row carrying its (possibly regenerated) slug is its own keeps
that slug and is never pushed to a suffixed one. -/
theorem update_self_collision_keeps_slug (rows : List (Nat × String))
    (pk : Nat) (name slug : String)
    (h : ∀ r ∈ rows, r.2 = slugBase name slug → r.1 = pk) :
    saveSlug rows (some pk) name slug = slugBase name slug :=
  saveSlug_eq_base rows (some pk) name slug fun r hr hrs => by rw [h r hr hrs]

theorem update_self_collision_keeps_slug_witness :
    (∀ r ∈ ([(1, "home"), (2, "sofa")] : List (Nat × String)),
      r.2 = slugBase "Home" "" → r.1 = 1) ∧
    saveSlug [(1, "home"), (2, "sofa")] (some 1) "Home" "" =
      slugBase "Home" "" :=
  ⟨by decide, update_self_collision_keeps_slug [(1, "home"), (2, "sofa")] 1
    "Home" "" (by decide)⟩

/-- C5: after any sequence of Category and Product creations and updates
run sequentially from the empty database, the slugs within the Category
table are pairwise distinct and the slugs within the Product table are
pairwise distinct; the two tables are independent namespaces — a reachable
state has a Category slug equal to a Product slug. -/
theorem slug_uniqueness_invariant :
    (∀ ops : List Op, ((runOps ops).cats.map CategoryRow.slug).Nodup ∧
      ((runOps ops).prods.map ProductRow.slug).Nodup) ∧
    ∃ ops : List Op, ∃ c ∈ (runOps ops).cats, ∃ p ∈ (runOps ops).prods,
      c.slug = p.slug := by
  constructor
  · intro ops
    obtain ⟨_, h2, _, h4⟩ := inv_runOps ops
    exact ⟨h2, h4⟩
  · exact ⟨[Op.createCat "Home" "" none, Op.createProd "Home" "" 1 0 0],
      by decide⟩

/-- C6: deleting a Category with at least one child Category or one
referencing Product fails with the protected data-integrity error (leaving
every row unchanged, as the error result carries no state change); deleting
a Category with no dependents succeeds, leaves the Product table untouched,
and removes exactly the one row with that primary key. -/
theorem delete_category_protection (db : DB) (pk : Nat) :
    (((∃ c ∈ db.cats, c.parent = some pk) ∨
        (∃ p ∈ db.prods, p.category = pk)) →
      deleteCategory db pk = DeleteResult.protectedError) ∧
    ((∀ c ∈ db.cats, c.parent ≠ some pk) → (∀ p ∈ db.prods, p.category ≠ pk) →
      deleteCategory db pk =
        DeleteResult.deleted ⟨db.cats.filter fun c => c.pk != pk, db.prods⟩ ∧
      ((db.cats.map CategoryRow.pk).Nodup → pk ∈ db.cats.map CategoryRow.pk →
        (db.cats.filter fun c => c.pk != pk).length + 1 = db.cats.length)) := by
  constructor
  · intro h
    unfold deleteCategory
    rw [if_pos]
    rcases h with ⟨c, hc, hceq⟩ | ⟨p, hp, hpeq⟩
    · rw [Bool.or_eq_true]
      left
      exact List.any_eq_true.mpr ⟨c, hc, beq_iff_eq.mpr hceq⟩
    · rw [Bool.or_eq_true]
      right
      exact List.any_eq_true.mpr ⟨p, hp, beq_iff_eq.mpr hpeq⟩
  · intro h1 h2
    have hcats : (db.cats.any fun c => c.parent == some pk) = false := by
      rw [List.any_eq_false]
      intro c hc hbeq
      exact h1 c hc (beq_iff_eq.mp hbeq)
    have hprods : (db.prods.any fun p => p.category == pk) = false := by
      rw [List.any_eq_false]
      intro p hp hbeq
      exact h2 p hp (beq_iff_eq.mp hbeq)
    refine ⟨?_, fun hnd hmem => length_filter_ne_pk db.cats pk hnd hmem⟩
    unfold deleteCategory
    rw [if_neg]
    rw [hcats, hprods]
    simp

theorem delete_category_protection_witness :
    ((∃ c ∈ (⟨[⟨1, "Office", "office", none⟩, ⟨2, "Chairs", "chairs", some 1⟩],
        []⟩ : DB).cats, c.parent = some 1) ∨
      (∃ p ∈ (⟨[⟨1, "Office", "office", none⟩, ⟨2, "Chairs", "chairs", some 1⟩],
        []⟩ : DB).prods, p.category = 1)) ∧
    deleteCategory ⟨[⟨1, "Office", "office", none⟩,
      ⟨2, "Chairs", "chairs", some 1⟩], []⟩ 1 =
        DeleteResult.protectedError ∧
    deleteCategory ⟨[⟨1, "Office", "office", none⟩,
      ⟨2, "Chairs", "chairs", some 1⟩], []⟩ 2 =
        DeleteResult.deleted ⟨[⟨1, "Office", "office", none⟩], []⟩ :=
  ⟨by decide,
    (delete_category_protection ⟨[⟨1, "Office", "office", none⟩,
      ⟨2, "Chairs", "chairs", some 1⟩], []⟩ 1).1 (by decide),
    by
      have h := (delete_category_protection ⟨[⟨1, "Office", "office", none⟩,
        ⟨2, "Chairs", "chairs", some 1⟩], []⟩ 2).2 (by decide) (by decide)
      exact h.1⟩

/-- C7: a product form submission with a negative price or a negative stock
is rejected by field validation: the view re-renders the form with HTTP
status 200 and no Product row is created or updated. -/
theorem negative_price_or_stock_rejected (db : DB) (inp : ProductInput)
    (h : inp.price < 0 ∨ inp.stock < 0) :
    productCreatePost db inp = (200, db) := by
  have hvalid : productFormValid inp = false := by
    rcases h with h | h
    · have hp : (clean_price inp.price).isOk = false := by
        unfold clean_price
        rw [if_pos h]
        rfl
      unfold productFormValid
      rw [hp]
      simp
    · have hp : (clean_stock inp.stock).isOk = false := by
        unfold clean_stock
        rw [if_pos h]
        rfl
      unfold productFormValid
      rw [hp]
      simp
  unfold productCreatePost
  rw [hvalid]
  simp

theorem negative_price_or_stock_rejected_witness :
    (((-5 : Int) < 0 ∨ (3 : Int) < 0) ∧
      productCreatePost emptyDB ⟨"Chair", some 1, -5, 3⟩ = (200, emptyDB)) ∧
    (((7 : Int) < 0 ∨ (-2 : Int) < 0) ∧
      productCreatePost emptyDB ⟨"Chair", some 1, 7, -2⟩ = (200, emptyDB)) :=
  ⟨⟨Or.inl (by decide),
      negative_price_or_stock_rejected emptyDB ⟨"Chair", some 1, -5, 3⟩
        (Or.inl (by decide))⟩,
    ⟨Or.inr (by decide),
      negative_price_or_stock_rejected emptyDB ⟨"Chair", some 1, 7, -2⟩
        (Or.inr (by decide))⟩⟩

/-- C8: the product list is produced from the queryset configured with the
category relation eagerly joined, so listing every product with its
category's name costs exactly one database query — no per-row fetch — and
the rendered list contains every product. -/
theorem product_list_single_query (db : DB) :
    listQueries productListQueryset db = 1 ∧
    (listProductsWithCategory db).length = db.prods.length ∧
    (listProductsWithCategory db).map Prod.fst =
      db.prods.map ProductRow.name := by
  refine ⟨?_, ?_, ?_⟩
  · simp [listQueries, productListQueryset]
  · simp [listProductsWithCategory]
  · rw [listProductsWithCategory, List.map_map]
    rfl

/-- C9: saving an entity that carries an explicitly supplied non-empty slug
equal to the slug of a different row of the same table does not fail and
does not persist the duplicate: the result is a hyphen-numbered variant of
the supplied slug that no row of the table carries — the uniqueness loop
applies to supplied slugs exactly as to generated ones. -/
theorem explicit_duplicate_slug_rewritten (rows : List (Nat × String))
    (pk? : Option Nat) (name slug : String) (hs : slug ≠ "")
    (r₀ : Nat × String) (hr₀ : r₀ ∈ rows) (hr₀s : r₀.2 = slug)
    (hother : ∀ p, pk? = some p → r₀.1 ≠ p) :
    ∃ k, 1 ≤ k ∧ saveSlug rows pk? name slug = slugCandidate slug k ∧
      slugCandidate slug k ∉ rows.map Prod.snd := by
  have hbase : slugBase name slug = slug := if_neg hs
  obtain ⟨k, h1, _, h3, h4, _⟩ :=
    saveSlug_eq_candidate rows pk? name slug r₀ hr₀
      (by rw [hbase]; exact hr₀s) hother
  rw [hbase] at h3 h4
  exact ⟨k, h1, h3, h4⟩

theorem explicit_duplicate_slug_rewritten_witness :
    (("home" : String) ≠ "" ∧
      ((1, "home") : Nat × String) ∈ ([(1, "home")] : List (Nat × String)) ∧
      ((1, "home") : Nat × String).2 = "home") ∧
    ∃ k, 1 ≤ k ∧
      saveSlug [(1, "home")] none "B" "home" = slugCandidate "home" k ∧
      slugCandidate "home" k ∉
        ([(1, "home")] : List (Nat × String)).map Prod.snd :=
  ⟨⟨by decide, by decide, by decide⟩,
    explicit_duplicate_slug_rewritten [(1, "home")] none "B" "home"
      (by decide) (1, "home") (by decide) (by decide)
      fun p hp => Option.noConfusion hp⟩

theorem slugCandidate_empty_base (k : Nat) :
    slugCandidate "" k = "-" ++ Nat.repr k := rfl

/-- C10: an entity whose name slugifies to the empty string and which has
no slug set is still saved: with the empty string as its slug when no row
of the table has an empty slug, and with a bare-hyphen numbered slug `-k`
when the empty slug is already taken. -/
theorem empty_slugify_saves (rows : List (Nat × String)) (name : String)
    (h : slugify name = "") :
    (("" : String) ∉ rows.map Prod.snd → saveSlug rows none name "" = "") ∧
    (("" : String) ∈ rows.map Prod.snd → ∃ k, 1 ≤ k ∧
      saveSlug rows none name "" = "-" ++ Nat.repr k ∧
      ("-" ++ Nat.repr k) ∉ rows.map Prod.snd) := by
  have hbase : slugBase name "" = "" := by
    rw [slugBase, if_pos rfl, h]
  constructor
  · intro hnot
    have := saveSlug_eq_base rows none name "" ?_
    · rw [this, hbase]
    · intro r hr hrs
      rw [hbase] at hrs
      exact absurd (List.mem_map.mpr ⟨r, hr, hrs⟩) hnot
  · intro hmem
    obtain ⟨r₀, hr₀, hr₀s⟩ := List.mem_map.mp hmem
    obtain ⟨k, h1, _, h3, h4, _⟩ :=
      saveSlug_eq_candidate rows none name "" r₀ hr₀
        (by rw [hbase]; exact hr₀s) fun p hp => Option.noConfusion hp
    rw [hbase, slugCandidate_empty_base] at h3 h4
    exact ⟨k, h1, h3, h4⟩

theorem empty_slugify_saves_witness :
    slugify "!!!" = "" ∧
    (("" : String) ∉ ([] : List (Nat × String)).map Prod.snd →
      saveSlug [] none "!!!" "" = "") ∧
    (("" : String) ∈ ([(1, "")] : List (Nat × String)).map Prod.snd →
      ∃ k, 1 ≤ k ∧ saveSlug [(1, "")] none "!!!" "" = "-" ++ Nat.repr k ∧
        ("-" ++ Nat.repr k) ∉ ([(1, "")] : List (Nat × String)).map Prod.snd) :=
  ⟨by decide, (empty_slugify_saves [] "!!!" (by decide)).1,
    (empty_slugify_saves [(1, "")] "!!!" (by decide)).2⟩

end Furnify
